import Mathlib

/-!
Verification of the fractional ranked-list positioning system of the
Movie_List backend.

The embedded code comes from:
* `backend/app/services/ranking_math.py` — the pure-Python `RankingMath`
  helpers (`calculate_position`, `interpolate_score`) built on `Decimal`
  arithmetic with `getcontext().prec = 28`;
* `backend/alembic/versions/0001_initial_schema.py` — the DDL of the
  `user_rankings` table with its unique/check constraints and the two
  Postgres functions `rebalance_tier_positions` and
  `insert_ranking_between`;
* `backend/app/services/ranking_service.py` — the service orchestration
  (`create_ranking` delegates to the SQL function, `move_ranking` uses the
  Python math, both fall back to `rebalance_tier_positions`).

Modelling conventions:
* Python `Decimal` values and SQL `numeric` / `double precision` values are
  modelled as exact rationals (`ℚ`).  At the decimal scales the ranking
  system manipulates, the 28-significant-digit decimal context of
  `ranking_math.py` computes exactly, and the trailing `float(...)`
  conversion used purely for storage is modelled as the identity.
* Python `round(d, 1)` on `Decimal` uses the context rounding
  ROUND_HALF_EVEN; PostgreSQL `round(numeric, 1)` rounds ties away from
  zero.  Both are modelled exactly below and they genuinely differ.
* Database state is a list of rows; Postgres constraint enforcement is
  modelled by validating the would-be post-transaction state and leaving
  the state unchanged (transaction rollback) when a constraint fails.
  Timestamp columns are not modelled.
-/

namespace MovieList

/-! ### Rounding primitives

`roundTieEven` is the integer rounding used by Python's
`decimal.Decimal.__round__` (ROUND_HALF_EVEN); `roundTieAway` is the
integer rounding used by PostgreSQL `round(numeric, n)` (ties away from
zero).  Both agree except on exact halves. -/

/-- Round a rational to the nearest integer, ties to the even integer
(Python `Decimal` ROUND_HALF_EVEN). -/
def roundTieEven (y : ℚ) : ℤ :=
  if y - ⌊y⌋ < 1/2 then ⌊y⌋
  else if 1/2 < y - ⌊y⌋ then ⌊y⌋ + 1
  else if ⌊y⌋ % 2 = 0 then ⌊y⌋ else ⌊y⌋ + 1

/-- Round a rational to the nearest integer, ties away from zero
(PostgreSQL `round` on `numeric`). -/
def roundTieAway (y : ℚ) : ℤ :=
  if y - ⌊y⌋ < 1/2 then ⌊y⌋
  else if 1/2 < y - ⌊y⌋ then ⌊y⌋ + 1
  else if 0 ≤ y then ⌊y⌋ + 1 else ⌊y⌋

/-- Python `round(x, 1)` on a `Decimal` value: one fractional digit,
ties to even. -/
def pyRound1 (x : ℚ) : ℚ := (roundTieEven (10 * x) : ℚ) / 10

/-- PostgreSQL `round(x, 1)` on a `numeric` value: one fractional digit,
ties away from zero. -/
def pgRound1 (x : ℚ) : ℚ := (roundTieAway (10 * x) : ℚ) / 10

/-! ### Tier policy

`TIER_SCORE_RANGES` from `ranking_math.py`; identical to the
`chk_visual_score_by_tier` CHECK constraint and to the CASE expressions
inside `insert_ranking_between`. -/

/-- The closed tier enumeration `ranking_tier AS ENUM ('S','A','B','C','D')`. -/
inductive Tier : Type
  | S | A | B | C | D
deriving DecidableEq, Repr

/-- Lower bound of each tier's score band (`TIER_SCORE_RANGES[tier][0]`). -/
def tierMin : Tier → ℚ
  | .S => 9.0 | .A => 8.0 | .B => 7.0 | .C => 6.0 | .D => 0.0

/-- Upper bound of each tier's score band (`TIER_SCORE_RANGES[tier][1]`). -/
def tierMax : Tier → ℚ
  | .S => 10.0 | .A => 8.9 | .B => 7.9 | .C => 6.9 | .D => 5.9

/-- `tierMin` as an integer number of tenths. -/
def tierMinZ : Tier → ℤ
  | .S => 90 | .A => 80 | .B => 70 | .C => 60 | .D => 0

/-- `tierMax` as an integer number of tenths. -/
def tierMaxZ : Tier → ℤ
  | .S => 100 | .A => 89 | .B => 79 | .C => 69 | .D => 59

/-! ### RankingMath (`ranking_math.py`) -/

/-- `REBALANCE_THRESHOLD = Decimal("1e-9")`, the minimum acceptable gap. -/
def REBALANCE_THRESHOLD : ℚ := 1 / 1000000000

/-- `DEFAULT_START_POSITION = Decimal("1000.0")`. -/
def DEFAULT_START_POSITION : ℚ := 1000.0

/-- `APPEND_STEP = Decimal("1000.0")`. -/
def APPEND_STEP : ℚ := 1000.0

/-- The two `ValueError`s `RankingMath.calculate_position` can raise. -/
inductive CalcErr : Type
  | orderViolation   -- "prev_rank must be less than next_rank"
  | gapExhausted     -- "Gap too small — trigger rebalance_tier_positions()"
deriving DecidableEq, Repr

/-- `RankingMath.calculate_position(prev_rank, next_rank)`:
the fractional-index slot between the two optional neighbours. -/
def calculate_position : Option ℚ → Option ℚ → Except CalcErr ℚ
  | none, none => .ok DEFAULT_START_POSITION
  | none, some next_rank => .ok (next_rank - APPEND_STEP)
  | some prev_rank, none => .ok (prev_rank + APPEND_STEP)
  | some prev_rank, some next_rank =>
    if next_rank ≤ prev_rank then .error .orderViolation
    else if next_rank - prev_rank < REBALANCE_THRESHOLD then .error .gapExhausted
    else .ok ((prev_rank + next_rank) / 2)

/-- `RankingMath.interpolate_score(tier, prev_score, next_score)`:
average of the neighbour context, clamped into the tier band, then
rounded to one fractional digit with Python's `round` (ties to even). -/
def interpolate_score (tier : Tier) (prev_score next_score : Option ℚ) : ℚ :=
  let raw : ℚ :=
    match prev_score, next_score with
    | none, none => (tierMin tier + tierMax tier) / 2
    | none, some n => (tierMax tier + n) / 2
    | some p, none => (p + tierMin tier) / 2
    | some p, some n => (p + n) / 2
  pyRound1 (max (tierMin tier) (min (tierMax tier) raw))

/-! ### The SQL-side math (`insert_ranking_between` CASE expressions) -/

/-- The `v_new_rank` CASE expression of `insert_ranking_between`. -/
def sqlNewRank : Option ℚ → Option ℚ → ℚ
  | some p, some n => (p + n) / 2
  | some p, none => p + 1000.0
  | none, some n => n - 1000.0
  | none, none => 1000.0

/-- The `v_raw_score` CASE expression of `insert_ranking_between`. -/
def sqlRawScore (tier : Tier) : Option ℚ → Option ℚ → ℚ
  | some p, some n => (p + n) / 2
  | some p, none => (p + tierMin tier) / 2
  | none, some n => (tierMax tier + n) / 2
  | none, none => (tierMin tier + tierMax tier) / 2

/-- The stored score of `insert_ranking_between`:
`round(LEAST(max, GREATEST(min, raw)), 1)` with Postgres rounding. -/
def sqlScore (tier : Tier) (prev_score next_score : Option ℚ) : ℚ :=
  pgRound1 (min (tierMax tier) (max (tierMin tier) (sqlRawScore tier prev_score next_score)))

/-! ### Rounding lemmas -/

lemma le_roundTieEven {a : ℤ} {y : ℚ} (h : (a : ℚ) ≤ y) : a ≤ roundTieEven y := by
  have hfl : a ≤ ⌊y⌋ := Int.le_floor.2 h
  unfold roundTieEven
  split_ifs <;> omega

lemma roundTieEven_le {b : ℤ} {y : ℚ} (h : y ≤ (b : ℚ)) : roundTieEven y ≤ b := by
  have hfl : ⌊y⌋ ≤ b := by
    have := Int.floor_le_floor h
    simpa using this
  have hfl' : (⌊y⌋ : ℚ) ≤ y := Int.floor_le y
  unfold roundTieEven
  split_ifs with h1 h2 h3
  · exact hfl
  · -- fractional part strictly above 1/2
    have : (⌊y⌋ : ℚ) + 1 < (b : ℚ) + 1 := by linarith
    have : ⌊y⌋ + 1 < b + 1 := by exact_mod_cast this
    omega
  · exact hfl
  · -- exact tie, odd floor
    have h1' : (1 : ℚ)/2 ≤ y - ⌊y⌋ := not_lt.1 h1
    have : (⌊y⌋ : ℚ) + 1 < (b : ℚ) + 1 := by linarith
    have : ⌊y⌋ + 1 < b + 1 := by exact_mod_cast this
    omega

lemma le_roundTieAway {a : ℤ} {y : ℚ} (h : (a : ℚ) ≤ y) : a ≤ roundTieAway y := by
  have hfl : a ≤ ⌊y⌋ := Int.le_floor.2 h
  unfold roundTieAway
  split_ifs <;> omega

lemma roundTieAway_le {b : ℤ} {y : ℚ} (h : y ≤ (b : ℚ)) : roundTieAway y ≤ b := by
  have hfl : ⌊y⌋ ≤ b := by
    have := Int.floor_le_floor h
    simpa using this
  have hfl' : (⌊y⌋ : ℚ) ≤ y := Int.floor_le y
  unfold roundTieAway
  split_ifs with h1 h2 h3
  · exact hfl
  · have : (⌊y⌋ : ℚ) + 1 < (b : ℚ) + 1 := by linarith
    have : ⌊y⌋ + 1 < b + 1 := by exact_mod_cast this
    omega
  · have h1' : (1 : ℚ)/2 ≤ y - ⌊y⌋ := not_lt.1 h1
    have : (⌊y⌋ : ℚ) + 1 < (b : ℚ) + 1 := by linarith
    have : ⌊y⌋ + 1 < b + 1 := by exact_mod_cast this
    omega
  · exact hfl

/-- `pyRound1` maps the interval between two one-decimal bounds into itself. -/
lemma pyRound1_bounds {a b : ℤ} {x : ℚ} (ha : (a : ℚ)/10 ≤ x) (hb : x ≤ (b : ℚ)/10) :
    (a : ℚ)/10 ≤ pyRound1 x ∧ pyRound1 x ≤ (b : ℚ)/10 := by
  have h1 : (a : ℚ) ≤ 10 * x := by linarith
  have h2 : 10 * x ≤ (b : ℚ) := by linarith
  have l1 : a ≤ roundTieEven (10 * x) := le_roundTieEven h1
  have l2 : roundTieEven (10 * x) ≤ b := roundTieEven_le h2
  have c1 : (a : ℚ) ≤ (roundTieEven (10 * x) : ℚ) := by exact_mod_cast l1
  have c2 : (roundTieEven (10 * x) : ℚ) ≤ (b : ℚ) := by exact_mod_cast l2
  unfold pyRound1
  constructor <;> [skip; skip] <;>
    · apply div_le_div_of_nonneg_right (by assumption) (by norm_num)

/-- `pgRound1` maps the interval between two one-decimal bounds into itself. -/
lemma pgRound1_bounds {a b : ℤ} {x : ℚ} (ha : (a : ℚ)/10 ≤ x) (hb : x ≤ (b : ℚ)/10) :
    (a : ℚ)/10 ≤ pgRound1 x ∧ pgRound1 x ≤ (b : ℚ)/10 := by
  have h1 : (a : ℚ) ≤ 10 * x := by linarith
  have h2 : 10 * x ≤ (b : ℚ) := by linarith
  have l1 : a ≤ roundTieAway (10 * x) := le_roundTieAway h1
  have l2 : roundTieAway (10 * x) ≤ b := roundTieAway_le h2
  have c1 : (a : ℚ) ≤ (roundTieAway (10 * x) : ℚ) := by exact_mod_cast l1
  have c2 : (roundTieAway (10 * x) : ℚ) ≤ (b : ℚ) := by exact_mod_cast l2
  unfold pgRound1
  constructor <;> [skip; skip] <;>
    · apply div_le_div_of_nonneg_right (by assumption) (by norm_num)

lemma tierMin_eq (t : Tier) : tierMin t = (tierMinZ t : ℚ) / 10 := by
  cases t <;> norm_num [tierMin, tierMinZ]

lemma tierMax_eq (t : Tier) : tierMax t = (tierMaxZ t : ℚ) / 10 := by
  cases t <;> norm_num [tierMax, tierMaxZ]

lemma tierMin_le_tierMax (t : Tier) : tierMin t ≤ tierMax t := by
  cases t <;> norm_num [tierMin, tierMax]

/-! ### Claims C1–C4 -/

/-- **C1** — Midpoint property: for any positions `p < n` with gap at least
the 1e-9 threshold, `calculate_position(p, n)` succeeds and returns a
position strictly between `p` and `n`. -/
theorem calculate_position_strictly_between (p n : ℚ)
    (hlt : p < n) (hgap : REBALANCE_THRESHOLD ≤ n - p) :
    ∃ m, calculate_position (some p) (some n) = .ok m ∧ p < m ∧ m < n := by
  refine ⟨(p + n) / 2, ?_, by linarith, by linarith⟩
  simp only [calculate_position]
  rw [if_neg (by linarith), if_neg (by linarith)]

/-- Witness for C1 at `p = 0`, `n = 1`. -/
theorem calculate_position_strictly_between_witness :
    (0 : ℚ) < 1 ∧ REBALANCE_THRESHOLD ≤ (1 : ℚ) - 0 ∧
      ∃ m, calculate_position (some 0) (some 1) = .ok m ∧ (0 : ℚ) < m ∧ m < 1 :=
  ⟨by norm_num,
   by norm_num [REBALANCE_THRESHOLD],
   calculate_position_strictly_between 0 1 (by norm_num)
     (by norm_num [REBALANCE_THRESHOLD])⟩

/-- **C2** — Append and prepend are exact ±1000.0 steps:
`calculate_position(p, None) = p + 1000.0 > p` and
`calculate_position(None, n) = n − 1000.0 < n`. -/
theorem calculate_position_append_prepend (p n : ℚ) :
    calculate_position (some p) none = .ok (p + 1000.0) ∧
    p < p + 1000.0 ∧
    calculate_position none (some n) = .ok (n - 1000.0) ∧
    n - 1000.0 < n := by
  refine ⟨rfl, by norm_num, rfl, by norm_num⟩

/-- **C3** — Gap exhaustion: for `p < n` with gap below the 1e-9 threshold,
`calculate_position` signals the gap-exhausted failure instead of
returning a position. -/
theorem calculate_position_gap_exhausted (p n : ℚ)
    (hlt : p < n) (hsmall : n - p < REBALANCE_THRESHOLD) :
    calculate_position (some p) (some n) = .error .gapExhausted := by
  simp only [calculate_position]
  rw [if_neg (by linarith), if_pos hsmall]

/-- Witness for C3 at `p = 0`, `n = 1e-10`. -/
theorem calculate_position_gap_exhausted_witness :
    (0 : ℚ) < 1 / 10000000000 ∧ (1 : ℚ) / 10000000000 - 0 < REBALANCE_THRESHOLD ∧
      calculate_position (some 0) (some (1 / 10000000000)) = .error .gapExhausted :=
  ⟨by norm_num,
   by norm_num [REBALANCE_THRESHOLD],
   calculate_position_gap_exhausted 0 (1 / 10000000000) (by norm_num)
     (by norm_num [REBALANCE_THRESHOLD])⟩

/-- **C4** — Score bounds: for every tier and every combination of optional
neighbour scores (including values far outside the band),
`interpolate_score` lands inside the tier's inclusive `[min, max]` band
and is an exact one-fractional-digit decimal. -/
theorem interpolate_score_in_band (t : Tier) (prev next : Option ℚ) :
    tierMin t ≤ interpolate_score t prev next ∧
    interpolate_score t prev next ≤ tierMax t ∧
    ∃ k : ℤ, interpolate_score t prev next = (k : ℚ) / 10 := by
  unfold interpolate_score
  set raw : ℚ :=
    (match prev, next with
    | none, none => (tierMin t + tierMax t) / 2
    | none, some n => (tierMax t + n) / 2
    | some p, none => (p + tierMin t) / 2
    | some p, some n => (p + n) / 2) with hraw
  have hmm := tierMin_le_tierMax t
  have hlo : (tierMinZ t : ℚ) / 10 ≤ max (tierMin t) (min (tierMax t) raw) :=
    le_trans (le_of_eq (tierMin_eq t).symm) (le_max_left _ _)
  have hhi : max (tierMin t) (min (tierMax t) raw) ≤ (tierMaxZ t : ℚ) / 10 :=
    le_trans (max_le hmm (min_le_left _ _)) (le_of_eq (tierMax_eq t))
  have hb := pyRound1_bounds hlo hhi
  refine ⟨?_, ?_, roundTieEven (10 * max (tierMin t) (min (tierMax t) raw)), rfl⟩
  · exact le_trans (le_of_eq (tierMin_eq t)) hb.1
  · exact le_trans hb.2 (le_of_eq (tierMax_eq t).symm)

/-! ### Database rows and the rebalance procedure

A `Ranking` models one row of `user_rankings` (timestamps omitted, ids
and foreign keys as opaque naturals).  A database state is a list of
rows. -/

/-- One row of the `user_rankings` table. -/
structure Ranking : Type where
  id : Nat
  user_id : Nat
  media_item_id : Nat
  tier : Tier
  rank_position : ℚ
  visual_score : ℚ
  notes : Option String
deriving DecidableEq, Repr

/-- Membership in the `(user_id, tier)` partition that
`rebalance_tier_positions(p_user_id, p_tier)` renumbers. -/
def inPart (u : Nat) (t : Tier) (r : Ranking) : Prop :=
  r.user_id = u ∧ r.tier = t

instance (u : Nat) (t : Tier) (r : Ranking) : Decidable (inPart u t r) := by
  unfold inPart; infer_instance

/-- The total preorder behind `ORDER BY rank_position, id`. -/
def rankLe (a b : Ranking) : Prop :=
  a.rank_position < b.rank_position ∨
    (a.rank_position = b.rank_position ∧ a.id ≤ b.id)

/-- Strict version of `rankLe`: `a` sorts strictly before `b`. -/
def rankLt (a b : Ranking) : Prop :=
  a.rank_position < b.rank_position ∨
    (a.rank_position = b.rank_position ∧ a.id < b.id)

instance : DecidableRel rankLe := fun a b => by unfold rankLe; infer_instance

instance : DecidableRel rankLt := fun a b => by unfold rankLt; infer_instance

instance : IsTotal Ranking rankLe :=
  ⟨fun a b => by
    unfold rankLe
    rcases lt_trichotomy a.rank_position b.rank_position with h | h | h
    · exact Or.inl (Or.inl h)
    · rcases Nat.le_total a.id b.id with hid | hid
      · exact Or.inl (Or.inr ⟨h, hid⟩)
      · exact Or.inr (Or.inr ⟨h.symm, hid⟩)
    · exact Or.inr (Or.inl h)⟩

instance : IsTrans Ranking rankLe :=
  ⟨fun a b c hab hbc => by
    unfold rankLe at *
    rcases hab with h1 | ⟨h1, h1'⟩ <;> rcases hbc with h2 | ⟨h2, h2'⟩
    · exact Or.inl (h1.trans h2)
    · exact Or.inl (h2 ▸ h1)
    · exact Or.inl (h1 ▸ h2)
    · exact Or.inr ⟨h1.trans h2, h1'.trans h2'⟩⟩

lemma rankLt_irrefl (a : Ranking) : ¬ rankLt a a := by
  unfold rankLt
  rintro (h | ⟨-, h⟩)
  · exact absurd h (lt_irrefl _)
  · exact absurd h (lt_irrefl _)

lemma rankLt_trans {a b c : Ranking} (hab : rankLt a b) (hbc : rankLt b c) :
    rankLt a c := by
  unfold rankLt at *
  rcases hab with h1 | ⟨h1, h1'⟩ <;> rcases hbc with h2 | ⟨h2, h2'⟩
  · exact Or.inl (h1.trans h2)
  · exact Or.inl (h2 ▸ h1)
  · exact Or.inl (h1 ▸ h2)
  · exact Or.inr ⟨h1.trans h2, h1'.trans h2'⟩

lemma rankLt_asymm {a b : Ranking} (hab : rankLt a b) : ¬ rankLt b a :=
  fun hba => rankLt_irrefl a (rankLt_trans hab hba)

lemma rankLe_of_rankLt {a b : Ranking} (h : rankLt a b) : rankLe a b := by
  unfold rankLt at h; unfold rankLe
  rcases h with h | ⟨h, h'⟩
  · exact Or.inl h
  · exact Or.inr ⟨h, Nat.le_of_lt h'⟩

lemma rankLt_of_rankLe_of_ne {a b : Ranking} (h : rankLe a b) (hne : a.id ≠ b.id) :
    rankLt a b := by
  unfold rankLe at h; unfold rankLt
  rcases h with h | ⟨h, h'⟩
  · exact Or.inl h
  · exact Or.inr ⟨h, lt_of_le_of_ne h' hne⟩

/-- If neither sorts strictly before the other, the keys coincide. -/
lemma key_eq_of_not_rankLt {a b : Ranking} (h1 : ¬ rankLt a b) (h2 : ¬ rankLt b a) :
    a.rank_position = b.rank_position ∧ a.id = b.id := by
  unfold rankLt at h1 h2
  push_neg at h1 h2
  rcases lt_trichotomy a.rank_position b.rank_position with h | h | h
  · exact absurd h (not_lt.2 h1.1)
  · refine ⟨h, ?_⟩
    have ha := h1.2 h
    have hb := h2.2 h.symm
    omega
  · exact absurd h (not_lt.2 h2.1)

/-- The CTE `ordered` of `rebalance_tier_positions`: pair each row's `id`
with `row_number * 1000.0`, the row numbering starting at `k + 1`. -/
def mkOrdered (k : Nat) : List Ranking → List (Nat × ℚ)
  | [] => []
  | r :: rest => (r.id, 1000 * ((k + 1 : Nat) : ℚ)) :: mkOrdered (k + 1) rest

/-- Look up the new position assigned to row id `i` (the join
`WHERE ur.id = o.id`). -/
def findPos (i : Nat) : List (Nat × ℚ) → Option ℚ
  | [] => none
  | p :: rest => if p.1 = i then some p.2 else findPos i rest

/-- The SQL function `rebalance_tier_positions(p_user_id, p_tier)`:
renumber every row of one `(user, tier)` partition to
`row_number() OVER (ORDER BY rank_position, id) * 1000.0`; rows whose id
does not appear in the CTE are untouched. -/
def rebalance_tier_positions (u : Nat) (t : Tier) (s : List Ranking) : List Ranking :=
  let ordered := mkOrdered 0
    (List.insertionSort rankLe (s.filter (fun r => decide (inPart u t r))))
  s.map (fun r =>
    match findPos r.id ordered with
    | some p => { r with rank_position := p }
    | none => r)

/-- The 1-based rank of row `r` inside the `(u, t)` partition of `s`,
ordered by `(rank_position, id)`: one plus the number of partition rows
sorting strictly before it. -/
def rankNumber (u : Nat) (t : Tier) (s : List Ranking) (r : Ranking) : Nat :=
  1 + s.countP (fun x => decide (inPart u t x) && decide (rankLt x r))

/-! ### Lemmas about the rebalance procedure -/

lemma mkOrdered_fst (k : Nat) (l : List Ranking) :
    (mkOrdered k l).map Prod.fst = l.map Ranking.id := by
  induction l generalizing k with
  | nil => rfl
  | cons a tl ih => simp [mkOrdered, ih]

lemma findPos_eq_none {i : Nat} {l : List (Nat × ℚ)} (h : i ∉ l.map Prod.fst) :
    findPos i l = none := by
  induction l with
  | nil => rfl
  | cons p rest ih =>
    simp only [List.map_cons, List.mem_cons] at h
    push_neg at h
    simp only [findPos]
    rw [if_neg (fun hc => h.1 hc.symm)]
    exact ih h.2

/-- In a sorted, id-distinct list, the row numbering of the `ordered` CTE
assigns row `r` the value `1000 × (k + 1 + #strictly-smaller rows)`. -/
lemma findPos_mkOrdered {l : List Ranking} (hs : List.Sorted rankLe l)
    (hn : (l.map Ranking.id).Nodup) :
    ∀ k, ∀ r ∈ l,
      findPos r.id (mkOrdered k l) =
        some (1000 * ((k + 1 + l.countP (fun x => decide (rankLt x r)) : Nat) : ℚ)) := by
  induction l with
  | nil => intro k r hr; cases hr
  | cons a tl ih =>
    intro k r hr
    rw [List.sorted_cons] at hs
    simp only [List.map_cons, List.nodup_cons] at hn
    rcases List.mem_cons.1 hr with rfl | hrtl
    · have hcount : tl.countP (fun x => decide (rankLt x r)) = 0 := by
        rw [List.countP_eq_zero]
        intro x hx
        simp only [decide_eq_true_eq]
        intro hlt
        have hle : rankLe r x := hs.1 x hx
        have hne : r.id ≠ x.id := fun he => hn.1 (by rw [he]; exact List.mem_map_of_mem _ hx)
        exact rankLt_asymm (rankLt_of_rankLe_of_ne hle hne) hlt
      have hself : (decide (rankLt r r)) = false := by
        simp [rankLt_irrefl r]
      simp only [mkOrdered, findPos, if_pos rfl, List.countP_cons, hcount, hself]
      norm_num
    · have hne : a.id ≠ r.id :=
        fun he => hn.1 (by rw [he]; exact List.mem_map_of_mem _ hrtl)
      have hlt : rankLt a r := rankLt_of_rankLe_of_ne (hs.1 r hrtl) hne
      simp only [mkOrdered, findPos]
      rw [if_neg hne, ih hs.2 hn.2 (k + 1) r hrtl, List.countP_cons]
      have harith : k + 1 + 1 + tl.countP (fun x => decide (rankLt x r))
          = k + 1 + (tl.countP (fun x => decide (rankLt x r)) + 1) := by omega
      simp [hlt, harith]

/-- Strict counting: if `p` implies `q` on `l` and some member satisfies
`q` but not `p`, then `countP p < countP q`. -/
lemma countP_lt_countP {α : Type} {l : List α} {p q : α → Bool}
    (hpq : ∀ x ∈ l, p x = true → q x = true) {a : α} (ha : a ∈ l)
    (hqa : q a = true) (hpa : p a = false) :
    l.countP p < l.countP q := by
  induction l with
  | nil => cases ha
  | cons b tl ih =>
    rw [List.countP_cons, List.countP_cons]
    rcases List.mem_cons.1 ha with rfl | hatl
    · rw [hpa, hqa]
      have hmono := List.countP_mono_left
        (l := tl) (p := p) (q := q) (fun x hx => hpq x (List.mem_cons_of_mem _ hx))
      norm_num
      omega
    · have h1 := ih (fun x hx h => hpq x (List.mem_cons_of_mem _ hx) h) hatl
      have hb : (if p b then 1 else 0) ≤ (if q b then 1 else 0) := by
        by_cases h : p b = true
        · rw [if_pos h, if_pos (hpq b (List.mem_cons_self _ _) h)]
        · rw [if_neg h]
          split <;> omega
      omega

/-- Within one partition, `rankNumber` is strictly monotone along `rankLt`. -/
lemma rankNumber_strict_mono {u : Nat} {t : Tier} {s : List Ranking}
    {r1 r2 : Ranking} (h1 : r1 ∈ s) (hp1 : inPart u t r1) (hlt : rankLt r1 r2) :
    rankNumber u t s r1 < rankNumber u t s r2 := by
  unfold rankNumber
  have := countP_lt_countP
    (l := s)
    (p := fun x => decide (inPart u t x) && decide (rankLt x r1))
    (q := fun x => decide (inPart u t x) && decide (rankLt x r2))
    (fun x _ hx => by
      simp only [Bool.and_eq_true, decide_eq_true_eq] at hx ⊢
      exact ⟨hx.1, rankLt_trans hx.2 hlt⟩)
    h1
    (by simp only [Bool.and_eq_true, decide_eq_true_eq]; exact ⟨hp1, hlt⟩)
    (by simp [rankLt_irrefl r1])
  omega

/-- With distinct ids, `rankLt` on partition members is equivalent to
strict comparison of their `rankNumber`s. -/
lemma rankLt_iff_rankNumber_lt {u : Nat} {t : Tier} {s : List Ranking}
    (hn : (s.map Ranking.id).Nodup) {r1 r2 : Ranking}
    (h1 : r1 ∈ s) (h2 : r2 ∈ s) (hp1 : inPart u t r1) (hp2 : inPart u t r2) :
    rankLt r1 r2 ↔ rankNumber u t s r1 < rankNumber u t s r2 := by
  constructor
  · exact fun h => rankNumber_strict_mono h1 hp1 h
  · intro hlt
    by_contra hnot
    by_cases hba : rankLt r2 r1
    · have := rankNumber_strict_mono h2 hp2 hba
      omega
    · have hkey := key_eq_of_not_rankLt hnot hba
      have : r1 = r2 := List.inj_on_of_nodup_map hn h1 h2 hkey.2
      rw [this] at hlt
      omega

lemma countP_congr_mem {α : Type} {l : List α} {p q : α → Bool}
    (h : ∀ x ∈ l, p x = q x) : l.countP p = l.countP q := by
  induction l with
  | nil => rfl
  | cons b tl ih =>
    rw [List.countP_cons, List.countP_cons, h b (List.mem_cons_self _ _),
      ih (fun x hx => h x (List.mem_cons_of_mem _ hx))]

/-- The row-level effect of a rebalance: partition rows get position
`1000 × rankNumber`, other rows are untouched. -/
def rebalView (u : Nat) (t : Tier) (s : List Ranking) (r : Ranking) : Ranking :=
  if inPart u t r
  then { r with rank_position := 1000 * ((rankNumber u t s r : Nat) : ℚ) }
  else r

/-- Master characterisation of the SQL rebalance: with distinct row ids it
rewrites each partition row's position to `1000 × rankNumber` and leaves
every other row untouched. -/
lemma rebalance_eq_map (u : Nat) (t : Tier) (s : List Ranking)
    (hn : (s.map Ranking.id).Nodup) :
    rebalance_tier_positions u t s = s.map (rebalView u t s) := by
  unfold rebalView
  unfold rebalance_tier_positions
  apply List.map_congr_left
  intro r hr
  have hperm : List.Perm
      (List.insertionSort rankLe (s.filter (fun x => decide (inPart u t x))))
      (s.filter (fun x => decide (inPart u t x))) :=
    List.perm_insertionSort rankLe _
  have hsort : List.Sorted rankLe
      (List.insertionSort rankLe (s.filter (fun x => decide (inPart u t x)))) :=
    List.sorted_insertionSort rankLe _
  have hnpart : ((s.filter (fun x => decide (inPart u t x))).map Ranking.id).Nodup :=
    hn.sublist ((List.filter_sublist s).map Ranking.id)
  have hnsorted :
      ((List.insertionSort rankLe (s.filter (fun x => decide (inPart u t x)))).map
        Ranking.id).Nodup :=
    (hperm.map Ranking.id).nodup_iff.2 hnpart
  by_cases hP : inPart u t r
  · have hrpart : r ∈ s.filter (fun x => decide (inPart u t x)) :=
      List.mem_filter.2 ⟨hr, by simpa using hP⟩
    have hrsorted : r ∈ List.insertionSort rankLe
        (s.filter (fun x => decide (inPart u t x))) := hperm.mem_iff.2 hrpart
    rw [findPos_mkOrdered hsort hnsorted 0 r hrsorted]
    have hc : (List.insertionSort rankLe
          (s.filter (fun x => decide (inPart u t x)))).countP
            (fun x => decide (rankLt x r))
        = s.countP (fun x => decide (inPart u t x) && decide (rankLt x r)) := by
      rw [hperm.countP_eq, List.countP_filter]
      exact countP_congr_mem (fun x _ => Bool.and_comm _ _)
    rw [hc, if_pos hP]
    unfold rankNumber
    norm_num
  · have hid : r.id ∉ (mkOrdered 0 (List.insertionSort rankLe
        (s.filter (fun x => decide (inPart u t x))))).map Prod.fst := by
      rw [mkOrdered_fst]
      intro hmem
      rcases List.mem_map.1 hmem with ⟨x, hx, hxid⟩
      have hxpart : x ∈ s.filter (fun y => decide (inPart u t y)) := hperm.mem_iff.1 hx
      have hxs : x ∈ s := (List.mem_filter.1 hxpart).1
      have hxP : inPart u t x := by
        have := (List.mem_filter.1 hxpart).2
        simpa using this
      have hxr : x = r := List.inj_on_of_nodup_map hn hxs hr hxid
      exact hP (hxr ▸ hxP)
    rw [findPos_eq_none hid, if_neg hP]

/-- A rebalance never changes a row's id, user, tier, media item or notes. -/
lemma rebalView_fields (u : Nat) (t : Tier) (s : List Ranking) (r : Ranking) :
    (rebalView u t s r).id = r.id ∧
    (rebalView u t s r).user_id = r.user_id ∧
    (rebalView u t s r).media_item_id = r.media_item_id ∧
    (rebalView u t s r).tier = r.tier ∧
    (rebalView u t s r).visual_score = r.visual_score ∧
    (rebalView u t s r).notes = r.notes := by
  by_cases h : inPart u t r <;> simp [rebalView, h]

lemma rebalView_of_inPart {u : Nat} {t : Tier} {s : List Ranking} {r : Ranking}
    (h : inPart u t r) :
    rebalView u t s r
      = { r with rank_position := 1000 * ((rankNumber u t s r : Nat) : ℚ) } :=
  if_pos h

lemma rebalView_of_not_inPart {u : Nat} {t : Tier} {s : List Ranking} {r : Ranking}
    (h : ¬ inPart u t r) : rebalView u t s r = r :=
  if_neg h

lemma inPart_rebalView (u : Nat) (t : Tier) (s : List Ranking) (r : Ranking) :
    inPart u t (rebalView u t s r) ↔ inPart u t r := by
  unfold inPart
  rw [(rebalView_fields u t s r).2.1, (rebalView_fields u t s r).2.2.2.1]

lemma map_id_rebalView (u : Nat) (t : Tier) (s s₂ : List Ranking) :
    (s₂.map (rebalView u t s)).map Ranking.id = s₂.map Ranking.id := by
  rw [List.map_map]
  exact List.map_congr_left (fun x _ => (rebalView_fields u t s x).1)

/-- Inside one partition of an id-distinct state, the rank numbers taken
after a rebalance agree with those taken before it. -/
lemma rankNumber_rebalView (u : Nat) (t : Tier) (s : List Ranking)
    (hn : (s.map Ranking.id).Nodup) {r : Ranking} (hr : r ∈ s) (hP : inPart u t r) :
    rankNumber u t (s.map (rebalView u t s)) (rebalView u t s r)
      = rankNumber u t s r := by
  unfold rankNumber
  rw [List.countP_map]
  refine congrArg (1 + ·) (countP_congr_mem ?_)
  intro x hx
  simp only [Function.comp]
  by_cases hPx : inPart u t x
  · have hPx' : inPart u t (rebalView u t s x) := (inPart_rebalView u t s x).2 hPx
    rw [decide_eq_true hPx', decide_eq_true hPx]
    simp only [Bool.true_and]
    rw [decide_eq_decide]
    have hvx : rebalView u t s x
        = { x with rank_position := 1000 * ((rankNumber u t s x : Nat) : ℚ) } :=
      if_pos hPx
    have hvr : rebalView u t s r
        = { r with rank_position := 1000 * ((rankNumber u t s r : Nat) : ℚ) } :=
      if_pos hP
    rw [hvx, hvr]
    unfold rankLt
    simp only
    constructor
    · rintro (hlt | ⟨heq, hid⟩)
      · have : (rankNumber u t s x : ℚ) < (rankNumber u t s r : ℚ) := by
          have h1000 : (0 : ℚ) < 1000 := by norm_num
          exact lt_of_mul_lt_mul_left (by linarith [hlt]) (le_of_lt h1000)
        have hnat : rankNumber u t s x < rankNumber u t s r := by exact_mod_cast this
        exact (rankLt_iff_rankNumber_lt hn hx hr hPx hP).2 hnat
      · have hNeq : rankNumber u t s x = rankNumber u t s r := by
          have : ((rankNumber u t s x : Nat) : ℚ) = ((rankNumber u t s r : Nat) : ℚ) := by
            have h1000 : (1000 : ℚ) ≠ 0 := by norm_num
            exact mul_left_cancel₀ h1000 heq
          exact_mod_cast this
        have hx_not : ¬ rankLt x r := by
          rw [rankLt_iff_rankNumber_lt hn hx hr hPx hP]; omega
        have hr_not : ¬ rankLt r x := by
          rw [rankLt_iff_rankNumber_lt hn hr hx hP hPx]; omega
        have hkey := key_eq_of_not_rankLt hx_not hr_not
        have : x = r := List.inj_on_of_nodup_map hn hx hr hkey.2
        rw [this] at hid
        omega
    · intro hlt
      have hnat := (rankLt_iff_rankNumber_lt hn hx hr hPx hP).1 hlt
      left
      have : ((rankNumber u t s x : Nat) : ℚ) < ((rankNumber u t s r : Nat) : ℚ) := by
        exact_mod_cast hnat
      linarith
  · have hPx' : ¬ inPart u t (rebalView u t s x) :=
      fun hc => hPx ((inPart_rebalView u t s x).1 hc)
    rw [decide_eq_false hPx', decide_eq_false hPx]
    simp

/-- Running the SQL rebalance twice is the same as running it once. -/
lemma rebalance_idempotent (u : Nat) (t : Tier) (s : List Ranking)
    (hn : (s.map Ranking.id).Nodup) :
    rebalance_tier_positions u t (rebalance_tier_positions u t s)
      = rebalance_tier_positions u t s := by
  have h1 := rebalance_eq_map u t s hn
  have hn1 : ((s.map (rebalView u t s)).map Ranking.id).Nodup := by
    rw [map_id_rebalView]; exact hn
  rw [h1, rebalance_eq_map u t (s.map (rebalView u t s)) hn1, List.map_map]
  apply List.map_congr_left
  intro r hr
  simp only [Function.comp]
  by_cases hP : inPart u t r
  · have hPv : inPart u t (rebalView u t s r) := (inPart_rebalView u t s r).2 hP
    rw [rebalView_of_inPart hPv, rankNumber_rebalView u t s hn hr hP,
      rebalView_of_inPart hP]
  · rw [rebalView_of_not_inPart hP, rebalView_of_not_inPart hP]

/-- **C6** — `rebalance_tier_positions` gives every row of the `(user, tier)`
partition the position `rank_number * 1000.0`, where `rank_number` is its
1-based rank ordered by current position with ties broken by id;
consequently rebalancing twice in a row equals rebalancing once, and the
pre-existing relative order of the partition rows is preserved. -/
theorem rebalance_rank_times_1000_idempotent (u : Nat) (t : Tier) (s : List Ranking)
    (hn : (s.map Ranking.id).Nodup) :
    (∀ r ∈ s, inPart u t r →
      { r with rank_position := ((rankNumber u t s r : Nat) : ℚ) * 1000.0 }
        ∈ rebalance_tier_positions u t s) ∧
    rebalance_tier_positions u t (rebalance_tier_positions u t s)
      = rebalance_tier_positions u t s ∧
    (∀ r1 ∈ s, ∀ r2 ∈ s, inPart u t r1 → inPart u t r2 → rankLt r1 r2 →
      rankNumber u t s r1 < rankNumber u t s r2) := by
  refine ⟨?_, rebalance_idempotent u t s hn, ?_⟩
  · intro r hr hP
    rw [rebalance_eq_map u t s hn]
    refine List.mem_map.2 ⟨r, hr, ?_⟩
    rw [rebalView_of_inPart hP]
    have : (1000 : ℚ) * ((rankNumber u t s r : Nat) : ℚ)
        = ((rankNumber u t s r : Nat) : ℚ) * 1000.0 := by
      norm_num [mul_comm]
    rw [this]
  · intro r1 h1 r2 _ hp1 _ hlt
    exact rankNumber_strict_mono h1 hp1 hlt

/-- Witness for C6: a two-row partition stored out of order (positions 500
and 250) is renumbered to 2000 and 1000 respectively. -/
theorem rebalance_rank_times_1000_idempotent_witness :
    (([⟨1, 7, 10, .S, 500, 9.5, none⟩, ⟨2, 7, 11, .S, 250, 9.6, none⟩]
        : List Ranking).map Ranking.id).Nodup ∧
    ((∀ r ∈ ([⟨1, 7, 10, .S, 500, 9.5, none⟩, ⟨2, 7, 11, .S, 250, 9.6, none⟩]
        : List Ranking), inPart 7 .S r →
      { r with rank_position :=
          ((rankNumber 7 .S [⟨1, 7, 10, .S, 500, 9.5, none⟩,
            ⟨2, 7, 11, .S, 250, 9.6, none⟩] r : Nat) : ℚ) * 1000.0 }
        ∈ rebalance_tier_positions 7 .S
            [⟨1, 7, 10, .S, 500, 9.5, none⟩, ⟨2, 7, 11, .S, 250, 9.6, none⟩]) ∧
    rebalance_tier_positions 7 .S (rebalance_tier_positions 7 .S
        [⟨1, 7, 10, .S, 500, 9.5, none⟩, ⟨2, 7, 11, .S, 250, 9.6, none⟩])
      = rebalance_tier_positions 7 .S
          [⟨1, 7, 10, .S, 500, 9.5, none⟩, ⟨2, 7, 11, .S, 250, 9.6, none⟩] ∧
    (∀ r1 ∈ ([⟨1, 7, 10, .S, 500, 9.5, none⟩, ⟨2, 7, 11, .S, 250, 9.6, none⟩]
        : List Ranking),
     ∀ r2 ∈ ([⟨1, 7, 10, .S, 500, 9.5, none⟩, ⟨2, 7, 11, .S, 250, 9.6, none⟩]
        : List Ranking), inPart 7 .S r1 → inPart 7 .S r2 → rankLt r1 r2 →
      rankNumber 7 .S [⟨1, 7, 10, .S, 500, 9.5, none⟩,
          ⟨2, 7, 11, .S, 250, 9.6, none⟩] r1
        < rankNumber 7 .S [⟨1, 7, 10, .S, 500, 9.5, none⟩,
            ⟨2, 7, 11, .S, 250, 9.6, none⟩] r2)) :=
  ⟨by decide,
   rebalance_rank_times_1000_idempotent 7 .S
     [⟨1, 7, 10, .S, 500, 9.5, none⟩, ⟨2, 7, 11, .S, 250, 9.6, none⟩] (by decide)⟩

/-! ### The ranking store (`ranking_service.py` + `insert_ranking_between`)

Postgres constraint enforcement is modelled per written row: a write that
would violate `chk_visual_score_by_tier`, `uq_user_media`,
`uq_user_tier_rank_position` or the primary key makes the whole
transaction fail, leaving the caller's state unchanged.  The
`uq_user_media` violation carries its own error (the service maps it to
`DuplicateRankingError`); the constraints are checked in their DDL
declaration order. -/

/-- Symbolic error taxonomy of the ranking store. -/
inductive RankErr : Type
  | validationError    -- `ValueError` paths: equal/misordered/mistiered/self neighbours
  | neighborNotFound   -- neighbour id does not resolve for this user
  | duplicateRanking   -- `uq_user_media` violation → `DuplicateRankingError`
  | integrityViolation -- any other constraint violation
  | rankingNotFound    -- `move_ranking` target missing → `RankingNotFoundError`
  | internalError      -- gap still exhausted after a rebalance
deriving DecidableEq, Repr

/-- The neighbour lookup of `insert_ranking_between`:
`SELECT * FROM user_rankings WHERE id = ... AND user_id = ... AND tier = ...
FOR UPDATE`, raising when not found. -/
def findNeighbor (s : List Ranking) (u : Nat) (t : Tier) :
    Option Nat → Except RankErr (Option Ranking)
  | none => .ok none
  | some nid =>
    match s.find? (fun r => decide (r.id = nid ∧ r.user_id = u ∧ r.tier = t)) with
    | some r => .ok (some r)
    | none => .error .neighborNotFound

/-- The re-read after an in-function rebalance:
`SELECT * INTO v_prev FROM user_rankings WHERE id = ... FOR UPDATE`
(no user/tier filter).  The fallback keeps the stale row; it is
unreachable because a rebalance never drops a row. -/
def refetchById (s : List Ranking) (r : Ranking) : Ranking :=
  (s.find? (fun x => x.id == r.id)).getD r

/-- The INSERT tail of `insert_ranking_between`: compute `v_new_rank` and
the clamped, rounded score, then insert under the table constraints. -/
def insertRow (s : List Ranking) (newId u m : Nat) (t : Tier)
    (oprev onext : Option Ranking) : Except RankErr (List Ranking × Ranking) :=
  let newRank := sqlNewRank (oprev.map Ranking.rank_position)
    (onext.map Ranking.rank_position)
  let newScore := sqlScore t (oprev.map Ranking.visual_score)
    (onext.map Ranking.visual_score)
  let row : Ranking := ⟨newId, u, m, t, newRank, newScore, none⟩
  if ¬ (tierMin t ≤ newScore ∧ newScore ≤ tierMax t) then .error .integrityViolation
  else if s.any (fun r => decide (r.user_id = u ∧ r.media_item_id = m)) then
    .error .duplicateRanking
  else if s.any (fun r => decide (r.user_id = u ∧ r.tier = t ∧
      r.rank_position = newRank)) then .error .integrityViolation
  else if s.any (fun r => decide (r.id = newId)) then .error .integrityViolation
  else .ok (s ++ [row], row)

/-- The SQL function `insert_ranking_between(p_user_id, p_media_item_id,
p_tier, p_prev_ranking_id, p_next_ranking_id)`. -/
def insert_ranking_between (s : List Ranking) (newId u m : Nat) (t : Tier)
    (prevId nextId : Option Nat) : Except RankErr (List Ranking × Ranking) :=
  if prevId ≠ none ∧ nextId ≠ none ∧ prevId = nextId then .error .validationError
  else
    match findNeighbor s u t prevId with
    | .error e => .error e
    | .ok oprev =>
      match findNeighbor s u t nextId with
      | .error e => .error e
      | .ok onext =>
        match oprev, onext with
        | some vprev, some vnext =>
          if vprev.rank_position ≥ vnext.rank_position then .error .validationError
          else if vnext.rank_position - vprev.rank_position < 1 / 1000000000 then
            insertRow (rebalance_tier_positions u t s) newId u m t
              (some (refetchById (rebalance_tier_positions u t s) vprev))
              (some (refetchById (rebalance_tier_positions u t s) vnext))
          else insertRow s newId u m t (some vprev) (some vnext)
        | _, _ => insertRow s newId u m t oprev onext

/-- `ranking_service.create_ranking`: call the SQL function, then apply
the optional notes with a follow-up UPDATE. -/
def create_ranking (s : List Ranking) (newId u m : Nat) (t : Tier)
    (prevId nextId : Option Nat) (notes : Option String) :
    Except RankErr (List Ranking) :=
  match insert_ranking_between s newId u m t prevId nextId with
  | .error e => .error e
  | .ok (s₁, row) =>
    match notes with
    | none => .ok s₁
    | some txt =>
      .ok (s₁.map (fun r => if r.id = row.id then { r with notes := some txt } else r))

/-- `_validate_neighbors._fetch`: resolve by id and owner, then check the
tier and the self-reference exclusion. -/
def validateNeighbor (s : List Ranking) (u : Nat) (t : Tier) (excludeId : Nat) :
    Option Nat → Except RankErr (Option Ranking)
  | none => .ok none
  | some nid =>
    match s.find? (fun r => decide (r.id = nid ∧ r.user_id = u)) with
    | none => .error .neighborNotFound
    | some row =>
      if row.tier ≠ t then .error .validationError
      else if row.id = excludeId then .error .validationError
      else .ok (some row)

/-- `ranking_service._compute_position_and_score`: try the Python math;
on a gap failure rebalance via SQL, refresh the neighbours and retry
once.  Returns the (possibly rebalanced) state with the new position and
score. -/
def compute_position_and_score (s : List Ranking) (u : Nat) (t : Tier)
    (oprev onext : Option Ranking) :
    Except RankErr (List Ranking × ℚ × ℚ) :=
  match calculate_position (oprev.map Ranking.rank_position)
      (onext.map Ranking.rank_position) with
  | .ok pos =>
    .ok (s, pos, interpolate_score t (oprev.map Ranking.visual_score)
      (onext.map Ranking.visual_score))
  | .error _ =>
    let s₁ := rebalance_tier_positions u t s
    let oprev₁ := oprev.map (refetchById s₁)
    let onext₁ := onext.map (refetchById s₁)
    match calculate_position (oprev₁.map Ranking.rank_position)
        (onext₁.map Ranking.rank_position) with
    | .ok pos =>
      .ok (s₁, pos, interpolate_score t (oprev₁.map Ranking.visual_score)
        (onext₁.map Ranking.visual_score))
    | .error _ => .error .internalError

/-- The tail of `move_ranking`: compute, update the row, flush + commit
under the table constraints. -/
def moveCommit (s : List Ranking) (u : Nat) (t : Tier) (target : Ranking)
    (oprev onext : Option Ranking) : Except RankErr (List Ranking) :=
  match compute_position_and_score s u t oprev onext with
  | .error e => .error e
  | .ok (s₁, pos, score) =>
    if ¬ (tierMin t ≤ score ∧ score ≤ tierMax t) then .error .integrityViolation
    else if s₁.any (fun r => decide (r.id ≠ target.id ∧
        r.user_id = target.user_id ∧
        r.media_item_id = target.media_item_id)) then .error .integrityViolation
    else if s₁.any (fun r => decide (r.id ≠ target.id ∧ r.user_id = target.user_id ∧
        r.tier = t ∧ r.rank_position = pos)) then .error .integrityViolation
    else .ok (s₁.map (fun r => if r.id = target.id then
      { target with tier := t, rank_position := pos, visual_score := score } else r))

/-- `ranking_service.move_ranking`: lock the target row, validate
neighbours, compute position and score via `RankingMath`, update tier,
position and score on the existing row, commit under the constraints. -/
def move_ranking (s : List Ranking) (u rid : Nat) (t : Tier)
    (prevId nextId : Option Nat) : Except RankErr (List Ranking) :=
  match s.find? (fun r => decide (r.id = rid ∧ r.user_id = u)) with
  | none => .error .rankingNotFound
  | some target =>
    match validateNeighbor s u t rid prevId with
    | .error e => .error e
    | .ok oprev =>
      match validateNeighbor s u t rid nextId with
      | .error e => .error e
      | .ok onext =>
        match oprev, onext with
        | some vprev, some vnext =>
          if vprev.rank_position ≥ vnext.rank_position then .error .validationError
          else moveCommit s u t target oprev onext
        | _, _ => moveCommit s u t target oprev onext

/-- One store mutation: a create or a move. -/
inductive Op : Type
  | create (newId u m : Nat) (t : Tier) (prevId nextId : Option Nat)
      (notes : Option String)
  | move (u rid : Nat) (t : Tier) (prevId nextId : Option Nat)

/-- Apply one operation; a failed transaction leaves the state unchanged. -/
def applyOp (s : List Ranking) : Op → List Ranking
  | .create newId u m t p n notes =>
    match create_ranking s newId u m t p n notes with
    | .ok s₁ => s₁
    | .error _ => s
  | .move u rid t p n =>
    match move_ranking s u rid t p n with
    | .ok s₁ => s₁
    | .error _ => s

/-- Run a sequence of operations from the empty store. -/
def runOps (ops : List Op) : List Ranking := ops.foldl applyOp []

/-! ### Store invariants (the DDL unique constraints) -/

/-- `uq_user_media` read pairwise: two distinct rows never share
`(user_id, media_item_id)`. -/
def noUserMediaClash (a b : Ranking) : Prop :=
  ¬ (a.user_id = b.user_id ∧ a.media_item_id = b.media_item_id)

/-- `uq_user_tier_rank_position` read pairwise: two distinct rows never
share `(user_id, tier, rank_position)`. -/
def noPosClash (a b : Ranking) : Prop :=
  ¬ (a.user_id = b.user_id ∧ a.tier = b.tier ∧ a.rank_position = b.rank_position)

/-- All table constraints the positioning system relies on: primary-key
distinctness plus the two unique constraints. -/
def StoreInv (s : List Ranking) : Prop :=
  (s.map Ranking.id).Nodup ∧ s.Pairwise noUserMediaClash ∧ s.Pairwise noPosClash

lemma pairwise_id_ne {s : List Ranking} (hn : (s.map Ranking.id).Nodup) :
    s.Pairwise (fun a b => a.id ≠ b.id) := by
  rw [List.Nodup, List.pairwise_map] at hn
  exact hn

/-- Rebalancing one partition preserves every table constraint. -/
lemma rebalance_inv (u : Nat) (t : Tier) {s : List Ranking} (h : StoreInv s) :
    StoreInv (rebalance_tier_positions u t s) := by
  obtain ⟨hn, hm, hp⟩ := h
  rw [rebalance_eq_map u t s hn]
  refine ⟨?_, ?_, ?_⟩
  · rw [map_id_rebalView]; exact hn
  · rw [List.pairwise_map]
    refine hm.imp ?_
    intro a b hab hc
    obtain ⟨h1, h2⟩ := hc
    rw [(rebalView_fields u t s a).2.1, (rebalView_fields u t s b).2.1] at h1
    rw [(rebalView_fields u t s a).2.2.1, (rebalView_fields u t s b).2.2.1] at h2
    exact hab ⟨h1, h2⟩
  · rw [List.pairwise_map]
    refine (hp.and (pairwise_id_ne hn)).imp_of_mem ?_
    intro a b ha hb hab hc
    obtain ⟨hpos, hid⟩ := hab
    obtain ⟨hcu, hct, hcp⟩ := hc
    rw [(rebalView_fields u t s a).2.1, (rebalView_fields u t s b).2.1] at hcu
    rw [(rebalView_fields u t s a).2.2.2.1, (rebalView_fields u t s b).2.2.2.1] at hct
    by_cases hPa : inPart u t a
    · by_cases hPb : inPart u t b
      · rw [rebalView_of_inPart hPa, rebalView_of_inPart hPb] at hcp
        have hcp' : (1000 : ℚ) * ((rankNumber u t s a : Nat) : ℚ)
            = 1000 * ((rankNumber u t s b : Nat) : ℚ) := hcp
        have hNeq : rankNumber u t s a = rankNumber u t s b := by
          have := mul_left_cancel₀ (by norm_num : (1000 : ℚ) ≠ 0) hcp'
          exact_mod_cast this
        have habpos : a.rank_position ≠ b.rank_position := fun he =>
          hpos ⟨hcu, hct, he⟩
        rcases lt_trichotomy a.rank_position b.rank_position with hlt | heq | hgt
        · have := rankNumber_strict_mono ha hPa (Or.inl hlt)
          omega
        · exact habpos heq
        · have := rankNumber_strict_mono hb hPb (Or.inl hgt)
          omega
      · exact hPb ⟨hcu ▸ hPa.1, hct ▸ hPa.2⟩
    · by_cases hPb : inPart u t b
      · exact hPa ⟨hcu.symm ▸ hPb.1, hct.symm ▸ hPb.2⟩
      · rw [rebalView_of_not_inPart hPa, rebalView_of_not_inPart hPb] at hcp
        exact hpos ⟨hcu, hct, hcp⟩

/-- A successful guarded INSERT preserves every table constraint. -/
lemma insertRow_inv {s : List Ranking} {newId u m : Nat} {t : Tier}
    {oprev onext : Option Ranking} {out : List Ranking × Ranking}
    (hInv : StoreInv s)
    (h : insertRow s newId u m t oprev onext = .ok out) : StoreInv out.1 := by
  obtain ⟨hn, hm, hp⟩ := hInv
  simp only [insertRow] at h
  split_ifs at h with h1 h2 h3 h4
  replace h2 := List.any_eq_false.1 (Bool.eq_false_iff.2 h2)
  replace h3 := List.any_eq_false.1 (Bool.eq_false_iff.2 h3)
  replace h4 := List.any_eq_false.1 (Bool.eq_false_iff.2 h4)
  simp only [decide_eq_true_eq] at h2 h3 h4
  cases h
  refine ⟨?_, ?_, ?_⟩
  · rw [List.map_append, List.nodup_append]
    refine ⟨hn, by simp, ?_⟩
    intro x hx
    rcases List.mem_map.1 hx with ⟨r, hr, hid⟩
    simp only [List.map_cons, List.map_nil, List.mem_cons, List.not_mem_nil]
    intro hc
    rcases hc with hc | hc
    · exact h4 r hr (hid.symm ▸ hc)
    · exact hc
  · rw [List.pairwise_append]
    refine ⟨hm, List.pairwise_singleton _ _, ?_⟩
    intro a ha b hb
    rw [List.mem_singleton] at hb
    subst hb
    exact fun hc => h2 a ha ⟨hc.1, hc.2⟩
  · rw [List.pairwise_append]
    refine ⟨hp, List.pairwise_singleton _ _, ?_⟩
    intro a ha b hb
    rw [List.mem_singleton] at hb
    subst hb
    exact fun hc => h3 a ha ⟨hc.1, hc.2.1, hc.2.2⟩

/-- A successful `insert_ranking_between` call preserves every table
constraint. -/
lemma insert_ranking_between_inv {s : List Ranking} {newId u m : Nat} {t : Tier}
    {prevId nextId : Option Nat} {out : List Ranking × Ranking}
    (hInv : StoreInv s)
    (h : insert_ranking_between s newId u m t prevId nextId = .ok out) :
    StoreInv out.1 := by
  unfold insert_ranking_between at h
  split_ifs at h with h0
  split at h
  · cases h
  · split at h
    · cases h
    · split at h
      · split_ifs at h with ho hg
        · exact insertRow_inv (rebalance_inv u t hInv) h
        · exact insertRow_inv hInv h
      · exact insertRow_inv hInv h

/-- The notes-only follow-up UPDATE of `create_ranking` preserves every
table constraint. -/
lemma notesMap_inv {s : List Ranking} {nid : Nat} {txt : String}
    (hInv : StoreInv s) :
    StoreInv (s.map (fun r => if r.id = nid then { r with notes := some txt }
      else r)) := by
  obtain ⟨hn, hm, hp⟩ := hInv
  have hfields : ∀ r : Ranking,
      ((if r.id = nid then { r with notes := some txt } else r) : Ranking).id = r.id ∧
      ((if r.id = nid then { r with notes := some txt } else r) : Ranking).user_id
        = r.user_id ∧
      ((if r.id = nid then { r with notes := some txt } else r) : Ranking).media_item_id
        = r.media_item_id ∧
      ((if r.id = nid then { r with notes := some txt } else r) : Ranking).tier
        = r.tier ∧
      ((if r.id = nid then { r with notes := some txt } else r) : Ranking).rank_position
        = r.rank_position := by
    intro r
    by_cases hr : r.id = nid <;> simp [hr]
  refine ⟨?_, ?_, ?_⟩
  · rw [List.map_map]
    have : ∀ r ∈ s, (Ranking.id ∘ fun r =>
        if r.id = nid then { r with notes := some txt } else r) r = Ranking.id r :=
      fun r _ => (hfields r).1
    rw [List.map_congr_left this]
    exact hn
  · rw [List.pairwise_map]
    refine hm.imp ?_
    intro a b hab hc
    obtain ⟨h1, h2⟩ := hc
    rw [(hfields a).2.1, (hfields b).2.1] at h1
    rw [(hfields a).2.2.1, (hfields b).2.2.1] at h2
    exact hab ⟨h1, h2⟩
  · rw [List.pairwise_map]
    refine hp.imp ?_
    intro a b hab hc
    obtain ⟨h1, h2, h3⟩ := hc
    rw [(hfields a).2.1, (hfields b).2.1] at h1
    rw [(hfields a).2.2.2.1, (hfields b).2.2.2.1] at h2
    rw [(hfields a).2.2.2.2, (hfields b).2.2.2.2] at h3
    exact hab ⟨h1, h2, h3⟩

/-- A successful `create_ranking` preserves every table constraint. -/
lemma create_ranking_inv {s : List Ranking} {newId u m : Nat} {t : Tier}
    {prevId nextId : Option Nat} {notes : Option String} {out : List Ranking}
    (hInv : StoreInv s)
    (h : create_ranking s newId u m t prevId nextId notes = .ok out) :
    StoreInv out := by
  unfold create_ranking at h
  split at h
  · cases h
  · rename_i s₁row heq
    split at h
    · injection h with h'
      subst h'
      exact insert_ranking_between_inv hInv heq
    · injection h with h'
      subst h'
      exact notesMap_inv (insert_ranking_between_inv hInv heq)

/-- A successful `_compute_position_and_score` leaves the state untouched
or rebalances the target partition. -/
lemma compute_position_and_score_state {s : List Ranking} {u : Nat} {t : Tier}
    {oprev onext : Option Ranking} {s₁ : List Ranking} {pos score : ℚ}
    (h : compute_position_and_score s u t oprev onext = .ok (s₁, pos, score)) :
    s₁ = s ∨ s₁ = rebalance_tier_positions u t s := by
  simp only [compute_position_and_score] at h
  split at h
  · cases h
    exact Or.inl rfl
  · split at h
    · cases h
      exact Or.inr rfl
    · cases h

/-- A successful move commit preserves every table constraint. -/
lemma moveCommit_inv {s : List Ranking} {u : Nat} {t : Tier} {target : Ranking}
    {oprev onext : Option Ranking} {out : List Ranking}
    (hInv : StoreInv s)
    (h : moveCommit s u t target oprev onext = .ok out) : StoreInv out := by
  unfold moveCommit at h
  split at h
  · cases h
  · rename_i s₁ pos score heq
    have hInv₁ : StoreInv s₁ := by
      rcases compute_position_and_score_state heq with h' | h'
      · rw [h']; exact hInv
      · rw [h']; exact rebalance_inv u t hInv
    obtain ⟨hn1, hm1, hp1⟩ := hInv₁
    split_ifs at h with hb hc1 hc2
    replace hc1 := List.any_eq_false.1 (Bool.eq_false_iff.2 hc1)
    replace hc2 := List.any_eq_false.1 (Bool.eq_false_iff.2 hc2)
    simp only [decide_eq_true_eq] at hc1 hc2
    cases h
    have hfid : ∀ r : Ranking,
        ((if r.id = target.id then
          { target with tier := t, rank_position := pos, visual_score := score }
          else r) : Ranking).id = r.id := by
      intro r
      by_cases hr : r.id = target.id
      · rw [if_pos hr]; exact hr.symm
      · rw [if_neg hr]
    refine ⟨?_, ?_, ?_⟩
    · rw [List.map_map]
      have heqids : ∀ r ∈ s₁, (Ranking.id ∘ fun r => if r.id = target.id then
          { target with tier := t, rank_position := pos, visual_score := score }
          else r) r = Ranking.id r := fun r _ => hfid r
      rw [List.map_congr_left heqids]
      exact hn1
    · rw [List.pairwise_map]
      refine (hm1.and (pairwise_id_ne hn1)).imp_of_mem ?_
      intro a b ha hb hab hc
      obtain ⟨hmab, hidab⟩ := hab
      by_cases hA : a.id = target.id
      · have hB : b.id ≠ target.id := fun hBc => hidab (hA.trans hBc.symm)
        rw [if_pos hA, if_neg hB] at hc
        exact hc1 b hb ⟨hB, hc.1.symm, hc.2.symm⟩
      · by_cases hB : b.id = target.id
        · rw [if_neg hA, if_pos hB] at hc
          exact hc1 a ha ⟨hA, hc.1, hc.2⟩
        · rw [if_neg hA, if_neg hB] at hc
          exact hmab hc
    · rw [List.pairwise_map]
      refine (hp1.and (pairwise_id_ne hn1)).imp_of_mem ?_
      intro a b ha hb hab hc
      obtain ⟨hpab, hidab⟩ := hab
      by_cases hA : a.id = target.id
      · have hB : b.id ≠ target.id := fun hBc => hidab (hA.trans hBc.symm)
        rw [if_pos hA, if_neg hB] at hc
        exact hc2 b hb ⟨hB, hc.1.symm, hc.2.1.symm, hc.2.2.symm⟩
      · by_cases hB : b.id = target.id
        · rw [if_neg hA, if_pos hB] at hc
          exact hc2 a ha ⟨hA, hc.1, hc.2.1, hc.2.2⟩
        · rw [if_neg hA, if_neg hB] at hc
          exact hpab hc

/-- A successful `move_ranking` preserves every table constraint. -/
lemma move_ranking_inv {s : List Ranking} {u rid : Nat} {t : Tier}
    {prevId nextId : Option Nat} {out : List Ranking}
    (hInv : StoreInv s)
    (h : move_ranking s u rid t prevId nextId = .ok out) : StoreInv out := by
  unfold move_ranking at h
  split at h
  · cases h
  · split at h
    · cases h
    · split at h
      · cases h
      · split at h
        · split_ifs at h with ho
          exact moveCommit_inv hInv h
        · exact moveCommit_inv hInv h

/-- Every applied operation preserves the table constraints. -/
lemma applyOp_inv {s : List Ranking} (hInv : StoreInv s) (op : Op) :
    StoreInv (applyOp s op) := by
  cases op with
  | create newId u m t p n notes =>
    simp only [applyOp]
    split
    · rename_i s₁ heq
      exact create_ranking_inv hInv heq
    · exact hInv
  | move u rid t p n =>
    simp only [applyOp]
    split
    · rename_i s₁ heq
      exact move_ranking_inv hInv heq
    · exact hInv

/-- Any sequence of operations from the empty store yields a state
satisfying every table constraint. -/
lemma runOps_inv (ops : List Op) : StoreInv (runOps ops) := by
  unfold runOps
  have hstep : ∀ s, StoreInv s → StoreInv (ops.foldl applyOp s) := by
    induction ops with
    | nil => exact fun s hs => hs
    | cons op rest ih =>
      intro s hs
      exact ih _ (applyOp_inv hs op)
  exact hstep [] ⟨by simp, List.Pairwise.nil, List.Pairwise.nil⟩

/-- **C5** — After any sequence of create and move operations, no two
Rankings of the same user in the same tier share a `rank_position`, and no
user has two Rankings for the same media item. -/
theorem create_move_preserve_uniqueness (ops : List Op) :
    (runOps ops).Pairwise noPosClash ∧ (runOps ops).Pairwise noUserMediaClash :=
  ⟨(runOps_inv ops).2.2, (runOps_inv ops).2.1⟩

/-! ### Concrete evaluations of the two rounding rules -/

lemma floor_1over2_add (k : ℤ) : ⌊(k : ℚ) + 1/2⌋ = k := by
  rw [Int.floor_eq_iff]
  constructor <;> [linarith; linarith]

lemma roundTieEven_half_even {k : ℤ} (hk : k % 2 = 0) :
    roundTieEven ((k : ℚ) + 1/2) = k := by
  rw [roundTieEven, floor_1over2_add]
  norm_num [hk]

lemma roundTieEven_half_odd {k : ℤ} (hk : ¬ k % 2 = 0) :
    roundTieEven ((k : ℚ) + 1/2) = k + 1 := by
  rw [roundTieEven, floor_1over2_add]
  norm_num [hk]

lemma roundTieAway_half_nonneg {k : ℤ} (hk : (0 : ℚ) ≤ (k : ℚ) + 1/2) :
    roundTieAway ((k : ℚ) + 1/2) = k + 1 := by
  rw [roundTieAway, floor_1over2_add]
  norm_num [hk]

/-- Python rounds the tier-B midpoint 7.45 down to 7.4 (banker's rounding,
74 is even). -/
lemma pyRound1_745 : pyRound1 7.45 = 7.4 := by
  rw [pyRound1, show (10 : ℚ) * 7.45 = (74 : ℤ) + 1/2 by norm_num,
    roundTieEven_half_even (by norm_num)]
  norm_num

/-- Postgres rounds the tier-B midpoint 7.45 up to 7.5 (ties away from
zero). -/
lemma pgRound1_745 : pgRound1 7.45 = 7.5 := by
  rw [pgRound1, show (10 : ℚ) * 7.45 = (74 : ℤ) + 1/2 by norm_num,
    roundTieAway_half_nonneg (by norm_num)]
  norm_num

/-- Postgres rounds 9.25 up to 9.3. -/
lemma pgRound1_925 : pgRound1 9.25 = 9.3 := by
  rw [pgRound1, show (10 : ℚ) * 9.25 = (92 : ℤ) + 1/2 by norm_num,
    roundTieAway_half_nonneg (by norm_num)]
  norm_num

/-- The app math computes 7.4 for an empty tier-B neighbourhood. -/
lemma interpolate_score_B_none_none : interpolate_score .B none none = 7.4 := by
  simp only [interpolate_score]
  rw [show ((tierMin .B + tierMax .B) / 2 : ℚ) = 7.45 by norm_num [tierMin, tierMax]]
  rw [show max (tierMin .B) (min (tierMax .B) 7.45) = 7.45 by
    norm_num [tierMin, tierMax]]
  exact pyRound1_745

/-- The SQL math computes 7.5 for an empty tier-B neighbourhood. -/
lemma sqlScore_B_none_none : sqlScore .B none none = 7.5 := by
  simp only [sqlScore, sqlRawScore]
  rw [show ((tierMin .B + tierMax .B) / 2 : ℚ) = 7.45 by norm_num [tierMin, tierMax]]
  rw [show min (tierMax .B) (max (tierMin .B) 7.45) = 7.45 by
    norm_num [tierMin, tierMax]]
  exact pgRound1_745

/-- The SQL math computes 9.3 when appending below a tier-S row scored
9.5 (average with the tier minimum 9.0). -/
lemma sqlScore_S_95_none : sqlScore .S (some 9.5) none = 9.3 := by
  simp only [sqlScore, sqlRawScore]
  rw [show (((9.5 : ℚ) + tierMin .S) / 2 : ℚ) = 9.25 by norm_num [tierMin]]
  rw [show min (tierMax .S) (max (tierMin .S) 9.25) = 9.25 by
    norm_num [tierMin, tierMax]]
  exact pgRound1_925

/-! ### Evaluation of a single-row cross-tier move (C7) -/

/-- Moving the only ranking a user has into tier `B` with no neighbours:
the position resets to the default 1000.0 and the score becomes tier B's
rounded midpoint 7.4; id, media item and notes survive unchanged. -/
lemma move_single_to_B (r : Ranking) (u : Nat) (hu : r.user_id = u) :
    move_ranking [r] u r.id .B none none
      = .ok [{ r with tier := .B, rank_position := 1000.0, visual_score := 7.4 }] := by
  have hfind : ([r].find? (fun x => decide (x.id = r.id ∧ x.user_id = u))) = some r :=
    List.find?_cons_of_pos [] (decide_eq_true ⟨rfl, hu⟩)
  unfold move_ranking
  rw [hfind]
  show moveCommit [r] u .B r none none = _
  unfold moveCommit
  show (if ¬ (tierMin Tier.B ≤ interpolate_score Tier.B none none ∧
        interpolate_score Tier.B none none ≤ tierMax Tier.B) then
      (Except.error RankErr.integrityViolation : Except RankErr (List Ranking))
    else if ([r].any fun x => decide (x.id ≠ r.id ∧ x.user_id = r.user_id ∧
        x.media_item_id = r.media_item_id)) then
      Except.error RankErr.integrityViolation
    else if ([r].any fun x => decide (x.id ≠ r.id ∧ x.user_id = r.user_id ∧
        x.tier = Tier.B ∧ x.rank_position = DEFAULT_START_POSITION)) then
      Except.error RankErr.integrityViolation
    else Except.ok ([r].map fun x => if x.id = r.id then
      { r with tier := Tier.B, rank_position := DEFAULT_START_POSITION,
               visual_score := (interpolate_score Tier.B none none) } else x)) = _
  rw [interpolate_score_B_none_none]
  rw [if_neg (not_not_intro ⟨by norm_num [tierMin], by norm_num [tierMax]⟩)]
  rw [if_neg (by simp)]
  rw [if_neg (by simp)]
  simp only [List.map, if_true]
  rfl

/-- **C7 counterexample** — the claim predicts score 7.5 for an S→B move
with no neighbours, but the code produces 7.4: Python's `round` on
`Decimal` is banker's rounding, so the tier-B midpoint 7.45 rounds down. -/
theorem move_cross_tier_score_counterexample :
    move_ranking [⟨1, 3, 5, Tier.S, 1000.0, 9.5, some "keeper"⟩] 3 1 .B none none
      = .ok [⟨1, 3, 5, Tier.B, 1000.0, 7.4, some "keeper"⟩]
    ∧ (7.4 : ℚ) ≠ 7.5 :=
  ⟨move_single_to_B ⟨1, 3, 5, Tier.S, 1000.0, 9.5, some "keeper"⟩ 3 rfl,
   by norm_num⟩

/-- **C7 (amended)** — Moving a user's only Ranking from tier S to tier B
with no neighbours recomputes `visual_score` to tier B's midpoint 7.45
rounded to 7.4 (banker's rounding), updates the tier to B, resets
`rank_position` to the default 1000.0, and leaves the Ranking's identity,
media item and notes unchanged. -/
theorem move_cross_tier_recomputes (r : Ranking) (u : Nat)
    (hu : r.user_id = u) (ht : r.tier = .S) :
    ∃ r' : Ranking, move_ranking [r] u r.id .B none none = .ok [r'] ∧
      r'.tier = .B ∧ r'.rank_position = 1000.0 ∧ r'.visual_score = 7.4 ∧
      r'.id = r.id ∧ r'.media_item_id = r.media_item_id ∧ r'.notes = r.notes := by
  refine ⟨{ r with tier := .B, rank_position := 1000.0, visual_score := 7.4 },
    move_single_to_B r u hu, rfl, rfl, rfl, rfl, rfl, rfl⟩

/-- Witness for C7 at a concrete tier-S ranking. -/
theorem move_cross_tier_recomputes_witness :
    (⟨9, 4, 6, Tier.S, 1000.0, 9.5, some "note"⟩ : Ranking).user_id = 4 ∧
    (⟨9, 4, 6, Tier.S, 1000.0, 9.5, some "note"⟩ : Ranking).tier = .S ∧
    ∃ r' : Ranking,
      move_ranking [⟨9, 4, 6, Tier.S, 1000.0, 9.5, some "note"⟩] 4 9 .B none none
        = .ok [r'] ∧
      r'.tier = .B ∧ r'.rank_position = 1000.0 ∧ r'.visual_score = 7.4 ∧
      r'.id = 9 ∧ r'.media_item_id = 6 ∧ r'.notes = some "note" :=
  ⟨rfl, rfl,
   move_cross_tier_recomputes ⟨9, 4, 6, Tier.S, 1000.0, 9.5, some "note"⟩ 4 rfl rfl⟩

/-! ### Evaluation of a single-row append create (C8) -/

/-- Appending a second tier-S ranking after an existing one at position
1000.0 scored 9.5: the DB function returns position 2000.0 and score 9.3
(the average of 9.5 with the tier minimum 9.0 is 9.25, rounded up). -/
lemma insert_append_single (r : Ranking) (newId u m2 : Nat)
    (hu : r.user_id = u) (ht : r.tier = Tier.S) (hpos : r.rank_position = 1000.0)
    (hscore : r.visual_score = 9.5) (hm : ¬ (r.media_item_id = m2))
    (hid : ¬ (r.id = newId)) :
    insert_ranking_between [r] newId u m2 .S (some r.id) none
      = .ok ([r, ⟨newId, u, m2, Tier.S, 2000.0, 9.3, none⟩],
             ⟨newId, u, m2, Tier.S, 2000.0, 9.3, none⟩) := by
  have hfind : ([r].find? (fun x => decide (x.id = r.id ∧ x.user_id = u ∧
      x.tier = Tier.S))) = some r :=
    List.find?_cons_of_pos [] (decide_eq_true ⟨rfl, hu, ht⟩)
  have hfn : findNeighbor [r] u Tier.S (some r.id) = .ok (some r) := by
    show (match [r].find? (fun x => decide (x.id = r.id ∧ x.user_id = u ∧
        x.tier = Tier.S)) with
      | some x => (Except.ok (some x) : Except RankErr (Option Ranking))
      | none => Except.error RankErr.neighborNotFound) = _
    rw [hfind]
  unfold insert_ranking_between
  rw [if_neg (by simp), hfn]
  show insertRow [r] newId u m2 Tier.S (some r) none = _
  unfold insertRow
  show (if ¬ (tierMin Tier.S ≤ sqlScore Tier.S (some r.visual_score) none ∧
        sqlScore Tier.S (some r.visual_score) none ≤ tierMax Tier.S) then
      (Except.error RankErr.integrityViolation : Except RankErr (List Ranking × Ranking))
    else if ([r].any fun x => decide (x.user_id = u ∧ x.media_item_id = m2)) then
      Except.error RankErr.duplicateRanking
    else if ([r].any fun x => decide (x.user_id = u ∧ x.tier = Tier.S ∧
        x.rank_position = sqlNewRank (some r.rank_position) none)) then
      Except.error RankErr.integrityViolation
    else if ([r].any fun x => decide (x.id = newId)) then
      Except.error RankErr.integrityViolation
    else Except.ok ([r] ++ [⟨newId, u, m2, Tier.S,
        sqlNewRank (some r.rank_position) none,
        sqlScore Tier.S (some r.visual_score) none, none⟩],
      ⟨newId, u, m2, Tier.S, sqlNewRank (some r.rank_position) none,
        sqlScore Tier.S (some r.visual_score) none, none⟩)) = _
  have hrank : sqlNewRank (some ((1000.0 : ℚ))) none = 2000.0 := by
    simp only [sqlNewRank]
    norm_num
  rw [hscore, sqlScore_S_95_none, hpos, hrank]
  rw [if_neg (not_not_intro ⟨by norm_num [tierMin], by norm_num [tierMax]⟩)]
  rw [if_neg (by simp [hm])]
  rw [if_neg (by norm_num [hpos])]
  rw [if_neg (by simp [hid])]
  rfl

/-- `create_ranking` on the same input (no notes). -/
lemma create_append_single (r : Ranking) (newId u m2 : Nat)
    (hu : r.user_id = u) (ht : r.tier = Tier.S) (hpos : r.rank_position = 1000.0)
    (hscore : r.visual_score = 9.5) (hm : ¬ (r.media_item_id = m2))
    (hid : ¬ (r.id = newId)) :
    create_ranking [r] newId u m2 .S (some r.id) none none
      = .ok [r, ⟨newId, u, m2, Tier.S, 2000.0, 9.3, none⟩] := by
  unfold create_ranking
  rw [insert_append_single r newId u m2 hu ht hpos hscore hm hid]

/-- **C8 counterexample** — the claim predicts score 9.8 (average with the
tier maximum) for the append scenario, but the code averages the previous
score with the tier *minimum*: (9.5 + 9.0)/2 = 9.25, stored as 9.3. -/
theorem create_append_score_counterexample :
    create_ranking [⟨1, 3, 5, Tier.S, 1000.0, 9.5, none⟩] 2 3 6 .S (some 1) none none
      = .ok [⟨1, 3, 5, Tier.S, 1000.0, 9.5, none⟩, ⟨2, 3, 6, Tier.S, 2000.0, 9.3, none⟩]
    ∧ (9.3 : ℚ) ≠ 9.8 :=
  ⟨create_append_single ⟨1, 3, 5, Tier.S, 1000.0, 9.5, none⟩ 2 3 6 rfl rfl rfl rfl
    (by decide) (by decide), by norm_num⟩

/-- **C8 (amended)** — Creating a Ranking in tier S with `prev` an existing
Ranking at position 1000.0 scored 9.5 and no next neighbour yields
position 2000.0 and `visual_score` 9.3: the score is the average of 9.5
and the tier minimum 9.0, i.e. 9.25, rounded half away from zero to one
decimal and clamped within [9.0, 10.0]. -/
theorem create_append_scenario (r : Ranking) (newId u m2 : Nat)
    (hu : r.user_id = u) (ht : r.tier = Tier.S) (hpos : r.rank_position = 1000.0)
    (hscore : r.visual_score = 9.5) (hm : ¬ (r.media_item_id = m2))
    (hid : ¬ (r.id = newId)) :
    create_ranking [r] newId u m2 .S (some r.id) none none
      = .ok [r, ⟨newId, u, m2, Tier.S, 2000.0, 9.3, none⟩] :=
  create_append_single r newId u m2 hu ht hpos hscore hm hid

/-- Witness for C8 at concrete rows. -/
theorem create_append_scenario_witness :
    (⟨4, 8, 5, Tier.S, 1000.0, 9.5, none⟩ : Ranking).user_id = 8 ∧
    (⟨4, 8, 5, Tier.S, 1000.0, 9.5, none⟩ : Ranking).tier = Tier.S ∧
    (⟨4, 8, 5, Tier.S, 1000.0, 9.5, none⟩ : Ranking).rank_position = 1000.0 ∧
    (⟨4, 8, 5, Tier.S, 1000.0, 9.5, none⟩ : Ranking).visual_score = 9.5 ∧
    ¬ ((⟨4, 8, 5, Tier.S, 1000.0, 9.5, none⟩ : Ranking).media_item_id = 6) ∧
    ¬ ((⟨4, 8, 5, Tier.S, 1000.0, 9.5, none⟩ : Ranking).id = 7) ∧
    create_ranking [⟨4, 8, 5, Tier.S, 1000.0, 9.5, none⟩] 7 8 6 .S (some 4) none none
      = .ok [⟨4, 8, 5, Tier.S, 1000.0, 9.5, none⟩, ⟨7, 8, 6, Tier.S, 2000.0, 9.3, none⟩] :=
  ⟨rfl, rfl, rfl, rfl, by decide, by decide,
   create_append_scenario ⟨4, 8, 5, Tier.S, 1000.0, 9.5, none⟩ 7 8 6 rfl rfl rfl rfl
     (by decide) (by decide)⟩

/-! ### Duplicate rejection (C9) -/

/-- The SQL-side stored score always lands inside the tier band. -/
lemma sqlScore_in_band (t : Tier) (prev next : Option ℚ) :
    tierMin t ≤ sqlScore t prev next ∧ sqlScore t prev next ≤ tierMax t := by
  unfold sqlScore
  have hmm := tierMin_le_tierMax t
  have hlo : (tierMinZ t : ℚ) / 10
      ≤ min (tierMax t) (max (tierMin t) (sqlRawScore t prev next)) :=
    le_trans (le_of_eq (tierMin_eq t).symm) (le_min hmm (le_max_left _ _))
  have hhi : min (tierMax t) (max (tierMin t) (sqlRawScore t prev next))
      ≤ (tierMaxZ t : ℚ) / 10 :=
    le_trans (min_le_left _ _) (le_of_eq (tierMax_eq t))
  have hb := pgRound1_bounds hlo hhi
  exact ⟨le_trans (le_of_eq (tierMin_eq t)) hb.1,
    le_trans hb.2 (le_of_eq (tierMax_eq t).symm)⟩

/-- **C9** — When the user already has a Ranking for the media item, a
fresh create (no neighbours supplied) fails with the `duplicate_ranking`
conflict and the stored state is unchanged. -/
theorem create_duplicate_rejected (s : List Ranking) (newId u m : Nat) (t : Tier)
    (notes : Option String) (r : Ranking) (hr : r ∈ s)
    (hu : r.user_id = u) (hm : r.media_item_id = m) :
    create_ranking s newId u m t none none notes = .error .duplicateRanking ∧
    applyOp s (.create newId u m t none none notes) = s := by
  have hins : insert_ranking_between s newId u m t none none
      = .error .duplicateRanking := by
    unfold insert_ranking_between
    rw [if_neg (by simp)]
    show insertRow s newId u m t none none = _
    simp only [insertRow, Option.map_none']
    rw [if_neg (not_not_intro (sqlScore_in_band t none none))]
    rw [if_pos (List.any_eq_true.2 ⟨r, hr, decide_eq_true ⟨hu, hm⟩⟩)]
  have hcr : create_ranking s newId u m t none none notes
      = .error .duplicateRanking := by
    unfold create_ranking
    rw [hins]
  refine ⟨hcr, ?_⟩
  simp only [applyOp]
  rw [hcr]

/-- Witness for C9: re-ranking media item 5 for user 3 is rejected. -/
theorem create_duplicate_rejected_witness :
    (⟨1, 3, 5, Tier.S, 1000.0, 9.5, none⟩ : Ranking)
      ∈ [(⟨1, 3, 5, Tier.S, 1000.0, 9.5, none⟩ : Ranking)] ∧
    (⟨1, 3, 5, Tier.S, 1000.0, 9.5, none⟩ : Ranking).user_id = 3 ∧
    (⟨1, 3, 5, Tier.S, 1000.0, 9.5, none⟩ : Ranking).media_item_id = 5 ∧
    create_ranking [⟨1, 3, 5, Tier.S, 1000.0, 9.5, none⟩] 2 3 5 .A none none
        (some "again") = .error .duplicateRanking ∧
    applyOp [⟨1, 3, 5, Tier.S, 1000.0, 9.5, none⟩]
        (.create 2 3 5 .A none none (some "again"))
      = [⟨1, 3, 5, Tier.S, 1000.0, 9.5, none⟩] :=
  ⟨List.mem_singleton.2 rfl, rfl, rfl,
   create_duplicate_rejected [⟨1, 3, 5, Tier.S, 1000.0, 9.5, none⟩] 2 3 5 .A
     (some "again") ⟨1, 3, 5, Tier.S, 1000.0, 9.5, none⟩
     (List.mem_singleton.2 rfl) rfl rfl⟩

/-! ### Refinement between the two implementations (C10) -/

/-- A value lying exactly halfway between two consecutive tenths — the
only inputs on which the two rounding rules can disagree. -/
def halfTie (x : ℚ) : Prop := 10 * x - ⌊10 * x⌋ = 1/2

lemma roundTieEven_eq_roundTieAway {y : ℚ} (h : ¬ (y - ⌊y⌋ = 1/2)) :
    roundTieEven y = roundTieAway y := by
  unfold roundTieEven roundTieAway
  rcases lt_trichotomy (y - ⌊y⌋) (1/2) with hlt | heq | hgt
  · rw [if_pos hlt, if_pos hlt]
  · exact absurd heq h
  · rw [if_neg (not_lt.2 (le_of_lt hgt)), if_neg (not_lt.2 (le_of_lt hgt)),
      if_pos hgt, if_pos hgt]

/-- **C10 counterexample** — the two implementations are not identical:
for tier B with no neighbours the app math returns 7.4 while the stored
procedure returns 7.5 (banker's rounding versus round-half-away on the
midpoint 7.45). -/
theorem positioning_math_divergence :
    interpolate_score .B none none = 7.4 ∧ sqlScore .B none none = 7.5 ∧
    interpolate_score .B none none ≠ sqlScore .B none none := by
  refine ⟨interpolate_score_B_none_none, sqlScore_B_none_none, ?_⟩
  rw [interpolate_score_B_none_none, sqlScore_B_none_none]
  norm_num

/-- **C10 (amended)** — The two implementations agree on `rank_position`
whenever the app math succeeds, and agree on `visual_score` whenever the
clamped neighbour average is not an exact midpoint between consecutive
tenths; only at such ties do they differ (the stored procedure rounds
half away from zero, the app rounds half to even). -/
theorem positioning_math_refinement :
    (∀ (p n : Option ℚ) (v : ℚ),
      calculate_position p n = .ok v → sqlNewRank p n = v) ∧
    (∀ (t : Tier) (prev next : Option ℚ),
      ¬ halfTie (min (tierMax t) (max (tierMin t) (sqlRawScore t prev next))) →
      interpolate_score t prev next = sqlScore t prev next) := by
  constructor
  · intro p n v h
    cases p <;> cases n
    · cases h; rfl
    · cases h; rfl
    · cases h; rfl
    · simp only [calculate_position] at h
      split_ifs at h with h1 h2
      cases h
      rfl
  · intro t prev next htie
    have key : pyRound1 (max (tierMin t) (min (tierMax t) (sqlRawScore t prev next)))
        = pgRound1 (min (tierMax t) (max (tierMin t) (sqlRawScore t prev next))) := by
      rw [max_min_distrib_left, max_eq_right (tierMin_le_tierMax t)]
      unfold pyRound1 pgRound1
      rw [roundTieEven_eq_roundTieAway htie]
    cases prev <;> cases next <;> exact key

/-- Witness for C10: both implementations give position 1500 between 1000
and 2000, and both give score 9.6 between scores 9.4 and 9.8 in tier S. -/
theorem positioning_math_refinement_witness :
    calculate_position (some 1000.0) (some 2000.0) = .ok 1500.0 ∧
    sqlNewRank (some 1000.0) (some 2000.0) = 1500.0 ∧
    ¬ halfTie (min (tierMax .S) (max (tierMin .S)
        (sqlRawScore .S (some 9.4) (some 9.8)))) ∧
    interpolate_score .S (some 9.4) (some 9.8)
      = sqlScore .S (some 9.4) (some 9.8) := by
  have hcalc : calculate_position (some (1000.0 : ℚ)) (some 2000.0)
      = .ok 1500.0 := by
    simp only [calculate_position]
    rw [if_neg (by norm_num), if_neg (by norm_num [REBALANCE_THRESHOLD])]
    rw [show ((1000.0 : ℚ) + 2000.0) / 2 = 1500.0 by norm_num]
  have htie : ¬ halfTie (min (tierMax .S) (max (tierMin .S)
      (sqlRawScore .S (some 9.4) (some 9.8)))) := by
    have hc : min (tierMax Tier.S) (max (tierMin Tier.S)
        (sqlRawScore Tier.S (some 9.4) (some 9.8))) = 9.6 := by
      simp only [sqlRawScore]
      norm_num [tierMin, tierMax]
    rw [hc]
    unfold halfTie
    rw [show (10 : ℚ) * 9.6 = 96 by norm_num,
      show ⌊(96 : ℚ)⌋ = 96 by norm_num [Int.floor_eq_iff]]
    norm_num
  exact ⟨hcalc, positioning_math_refinement.1 _ _ _ hcalc, htie,
    positioning_math_refinement.2 .S (some 9.4) (some 9.8) htie⟩

end MovieList
